import Mathlib

/-!
Verification of the parse5 streaming input preprocessor
(`packages/parse5/lib/tokenizer/preprocessor.ts`) and of the scriptable
driver (`packages/parse5-parser-stream/lib/index.ts`).

The preprocessor state and its operations are embedded shallowly:
the `html` buffer is a list of UTF-16 code units (`List Nat`), code
points are `Int` (the `EOF` sentinel is `-1`), and every mutating
method becomes a state-passing function on the `Pre` structure.
Invocations of the `onParseError` callback are recorded in an
instrumentation field `log` (newest invocation first).
-/

namespace Parse5

/-- Error codes of the repository's `error-codes.ts` that the preprocessor
itself can raise. -/
inductive ERR where
  | controlCharacterInInputStream
  | noncharacterInInputStream
  | surrogateInInputStream
  deriving DecidableEq, Repr

/-- A parser error as produced by `Preprocessor.getError`. -/
structure ParserError where
  code : ERR
  startLine : Int
  endLine : Int
  startCol : Int
  endCol : Int
  startOffset : Int
  endOffset : Int
  deriving DecidableEq, Repr

/-- The `EOF` sentinel code point (`CODE_POINTS.EOF` is `-1`). -/
def EOF_CP : Int := -1

/-- U+000D CARRIAGE RETURN. -/
def CR_CP : Int := 0x0d

/-- U+000A LINE FEED. -/
def LF_CP : Int := 0x0a

/-- Modelled from the spec: `unicode.ts` is not part of the provided
sources.  A surrogate code unit (leading or trailing half). -/
def isSurrogate (cp : Int) : Prop := 0xd800 ≤ cp ∧ cp ≤ 0xdfff

instance (cp : Int) : Decidable (isSurrogate cp) := by
  unfold isSurrogate; infer_instance

/-- Modelled from the spec: `unicode.ts` is not part of the provided
sources.  A trailing surrogate, i.e. a code unit that can complete a
surrogate pair. -/
def isSurrogatePair (cp : Int) : Prop := 0xdc00 ≤ cp ∧ cp ≤ 0xdfff

instance (cp : Int) : Decidable (isSurrogatePair cp) := by
  unfold isSurrogatePair; infer_instance

/-- Modelled from the spec: `unicode.ts` is not part of the provided
sources.  The scalar value of a surrogate pair,
`0x10000 + (cp1 - 0xd800) * 0x400 + (cp2 - 0xdc00)`, folded into the
equivalent `(cp1 - 0xd800) * 0x400 + 0x2400 + cp2`. -/
def getSurrogatePairCodePoint (cp1 cp2 : Int) : Int :=
  (cp1 - 0xd800) * 0x400 + 0x2400 + cp2

/-- Modelled from the spec: `unicode.ts` is not part of the provided
sources.  C0/C1 control code points other than the HTML whitespace
characters. -/
def isControlCodePoint (cp : Int) : Prop :=
  (cp ≠ 0x20 ∧ cp ≠ 0x0a ∧ cp ≠ 0x0d ∧ cp ≠ 0x09 ∧ cp ≠ 0x0c ∧
    0x01 ≤ cp ∧ cp ≤ 0x1f) ∨ (0x7f ≤ cp ∧ cp ≤ 0x9f)

instance (cp : Int) : Decidable (isControlCodePoint cp) := by
  unfold isControlCodePoint; infer_instance

/-- Modelled from the spec: `unicode.ts` is not part of the provided
sources.  Noncharacter code points (U+FDD0..U+FDEF and the two last code
points of every plane). -/
def isUndefinedCodePoint (cp : Int) : Prop :=
  (0xfdd0 ≤ cp ∧ cp ≤ 0xfdef) ∨ cp % 0x10000 = 0xfffe ∨ cp % 0x10000 = 0xffff

instance (cp : Int) : Decidable (isUndefinedCodePoint cp) := by
  unfold isUndefinedCodePoint; infer_instance

/-- `charCodeAt`: the code unit of `l` at (possibly negative) index `i`.
Out-of-range reads yield `0`; in JavaScript they yield `NaN`, but every
use in the embedded code is guarded by a bounds check, so the default is
never observed. -/
def cuAt (l : List Nat) (i : Int) : Int :=
  if 0 ≤ i then (l.getD i.toNat 0 : Int) else 0

/-- The state of `Preprocessor`.  `log` is instrumentation recording the
`onParseError` invocations (newest first); `hasErrHandler` models whether
`handler.onParseError` is non-null. -/
structure Pre where
  html : List Nat
  pos : Int
  lastGapPos : Int
  gapStack : List Int
  skipNextNewLine : Bool
  lastChunkWritten : Bool
  endOfChunkHit : Bool
  bufferWaterline : Int
  isEol : Bool
  lineStartPos : Int
  droppedBufferSize : Int
  line : Int
  lastErrOffset : Int
  hasErrHandler : Bool
  log : List ParserError
  deriving DecidableEq, Repr

/-- A freshly constructed `Preprocessor` (`lastGapPos` starts at `-2` so
that `col` is `0` on initialisation, `lastErrOffset` at `-1`). -/
def init (h : Bool) : Pre :=
  { html := [], pos := -1, lastGapPos := -2, gapStack := []
    skipNextNewLine := false, lastChunkWritten := false, endOfChunkHit := false
    bufferWaterline := 65536, isEol := false, lineStartPos := 0
    droppedBufferSize := 0, line := 1, lastErrOffset := -1
    hasErrHandler := h, log := [] }

/-- The `col` getter: `pos - lineStartPos + Number(lastGapPos !== pos)`. -/
def Pre.col (s : Pre) : Int :=
  s.pos - s.lineStartPos + (if s.lastGapPos ≠ s.pos then 1 else 0)

/-- The `offset` getter: `droppedBufferSize + pos`. -/
def Pre.offset (s : Pre) : Int :=
  s.droppedBufferSize + s.pos

/-- `getError(code)`: a `ParserError` at the current position. -/
def Pre.getError (code : ERR) (s : Pre) : ParserError :=
  { code := code, startLine := s.line, endLine := s.line
    startCol := s.col, endCol := s.col
    startOffset := s.offset, endOffset := s.offset }

/-- `_err(code)`: report a parse error unless the handler is absent or an
error was already reported at the current offset. -/
def Pre.err (code : ERR) (s : Pre) : Pre :=
  if s.hasErrHandler ∧ s.lastErrOffset ≠ s.offset then
    { s with lastErrOffset := s.offset, log := s.getError code :: s.log }
  else s

/-- `_addGap()`: push the previous gap position, record a gap at `pos`. -/
def Pre.addGap (s : Pre) : Pre :=
  { s with gapStack := s.lastGapPos :: s.gapStack, lastGapPos := s.pos }

/-- `_processSurrogate(cp)`: combine a well-formed pair, defer at a chunk
boundary, or report an isolated surrogate. -/
def Pre.processSurrogate (cp : Int) (s : Pre) : Int × Pre :=
  if s.pos ≠ (s.html.length : Int) - 1 then
    if isSurrogatePair (cuAt s.html (s.pos + 1)) then
      (getSurrogatePairCodePoint cp (cuAt s.html (s.pos + 1)),
        Pre.addGap { s with pos := s.pos + 1 })
    else
      (cp, s.err ERR.surrogateInInputStream)
  else if !s.lastChunkWritten then
    (EOF_CP, { s with endOfChunkHit := true })
  else
    (cp, s.err ERR.surrogateInInputStream)

/-- `_checkForProblematicCharacters(cp)`. -/
def Pre.checkForProblematicCharacters (cp : Int) (s : Pre) : Pre :=
  if isControlCodePoint cp then s.err ERR.controlCharacterInInputStream
  else if isUndefinedCodePoint cp then s.err ERR.noncharacterInInputStream
  else s

/-- `willDropParsedChunk()`. -/
def Pre.willDropParsedChunk (s : Pre) : Prop :=
  s.bufferWaterline < s.pos

instance (s : Pre) : Decidable s.willDropParsedChunk := by
  unfold Pre.willDropParsedChunk; infer_instance

/-- `dropParsedChunk()`: behind the waterline, truncate the parsed prefix
of `html`, account for it in `droppedBufferSize`, rebase `pos` and
`lineStartPos`, and clear the gap bookkeeping. -/
def Pre.dropParsedChunk (s : Pre) : Pre :=
  if s.willDropParsedChunk then
    { s with html := s.html.drop s.pos.toNat
             lineStartPos := s.lineStartPos - s.pos
             droppedBufferSize := s.droppedBufferSize + s.pos
             pos := 0, lastGapPos := -2, gapStack := [] }
  else s

/-- `write(chunk, isLastChunk)`. -/
def Pre.write (chunk : List Nat) (isLastChunk : Bool) (s : Pre) : Pre :=
  { s with html := if 0 < s.html.length then s.html ++ chunk else chunk
           endOfChunkHit := false, lastChunkWritten := isLastChunk }

/-- `insertHtmlAtCurrentPos(chunk)`: splice `chunk` immediately after the
cursor. -/
def Pre.insertHtmlAtCurrentPos (chunk : List Nat) (s : Pre) : Pre :=
  { s with html := s.html.take (s.pos + 1).toNat ++ chunk ++
                     s.html.drop (s.pos + 1).toNat
           endOfChunkHit := false }

/-- One pass of `advance()` up to the point where the source recurses.
`Sum.inl` is a returned code point together with the final state;
`Sum.inr` is the state passed to the recursive `advance()` call in the
LF-after-CR branch.  That recursive call always starts with
`skipNextNewLine = false` (the branch just cleared it), so the recursion
cannot fire a second time; `advance` below exploits this to stay
structural. -/
def advanceStep (s0 : Pre) : Sum (Int × Pre) Pre :=
  let s1 : Pre := { s0 with pos := s0.pos + 1 }
  let s2 : Pre :=
    if s1.isEol then
      { s1 with isEol := false, line := s1.line + 1, lineStartPos := s1.pos }
    else s1
  if (s2.html.length : Int) ≤ s2.pos then
    Sum.inl (EOF_CP, { s2 with endOfChunkHit := !s2.lastChunkWritten })
  else
    let cp : Int := cuAt s2.html s2.pos
    if cp = CR_CP then
      Sum.inl (LF_CP, { s2 with isEol := true, skipNextNewLine := true })
    else if cp = LF_CP ∧ s2.skipNextNewLine then
      Sum.inr (Pre.addGap { s2 with isEol := true, line := s2.line - 1,
                                    skipNextNewLine := false })
    else
      let s4 : Pre :=
        if cp = LF_CP then { s2 with isEol := true, skipNextNewLine := false }
        else { s2 with skipNextNewLine := false }
      let r : Int × Pre :=
        if isSurrogate cp then Pre.processSurrogate cp s4 else (cp, s4)
      if ¬r.2.hasErrHandler ∨ (0x1f < r.1 ∧ r.1 < 0x7f) ∨ r.1 = LF_CP ∨
          r.1 = CR_CP ∨ (0x9f < r.1 ∧ r.1 < 0xfdd0) then
        Sum.inl r
      else
        Sum.inl (r.1, Pre.checkForProblematicCharacters r.1 r.2)

/-- `advance()`.  The fallback `(EOF_CP, u)` arm is dead code: by
`advanceStep_inr_skip` and `advanceStep_of_not_skip` below, a second
`Sum.inr` cannot occur. -/
def Pre.advance (s : Pre) : Int × Pre :=
  match advanceStep s with
  | Sum.inl r => r
  | Sum.inr t =>
    match advanceStep t with
    | Sum.inl r => r
    | Sum.inr u => (EOF_CP, u)

/-- The loop of `retreat`: `while (pos < lastGapPos) { lastGapPos = pop();
pos--; }`.  A pop from the empty stack is modelled as `-2`; in TypeScript
it yields `undefined`, but the branch is unreachable from any state used
in this development, because the bottom of the gap chain is the initial
`-2` and the cursor never retreats below `-1`. -/
def rloop : Int → Int → List Int → Int × Int × List Int
  | p, g, st =>
    if p < g then
      match st with
      | [] => (p - 1, -2, [])
      | g2 :: rest => rloop (p - 1) g2 rest
    else (p, g, st)

/-- `retreat(count)`. -/
def Pre.retreat (count : Nat) (s : Pre) : Pre :=
  match rloop (s.pos - count) s.lastGapPos s.gapStack with
  | (p, g, st) => { s with pos := p, lastGapPos := g, gapStack := st, isEol := false }

/-- Run `n` calls of `advance`, recording after each one the returned
code point together with the `(line, col, offset)` of the resulting
state. -/
def outRec : Pre → Nat → List (Int × Int × Int × Int) × Pre
  | s, 0 => ([], s)
  | s, n + 1 =>
    match Pre.advance s with
    | (c, t) =>
      match outRec t n with
      | (l, u) => ((c, t.line, t.col, t.offset) :: l, u)

/-- The state after `n` calls of `advance`. -/
def iterN (s : Pre) (n : Nat) : Pre := (outRec s n).2

/-- A preprocessor operation, for quantifying over operation sequences. -/
inductive PreOp where
  | writeOp (chunk : List Nat) (isLast : Bool)
  | advanceOp
  | retreatOp (k : Nat)
  deriving DecidableEq, Repr

/-- Apply one operation. -/
def applyOp : PreOp → Pre → Pre
  | PreOp.writeOp c l, s => Pre.write c l s
  | PreOp.advanceOp, s => (Pre.advance s).2
  | PreOp.retreatOp k, s => Pre.retreat k s

/-- Run a sequence of operations in order. -/
def runOps (ops : List PreOp) (s : Pre) : Pre :=
  ops.foldl (fun s o => applyOp o s) s

/-- The observable fields of `Pre` other than the error-reporting state
(`lastErrOffset` and the callback log). -/
structure Core where
  html : List Nat
  pos : Int
  lastGapPos : Int
  gapStack : List Int
  skipNextNewLine : Bool
  lastChunkWritten : Bool
  endOfChunkHit : Bool
  bufferWaterline : Int
  isEol : Bool
  lineStartPos : Int
  droppedBufferSize : Int
  line : Int
  hasErrHandler : Bool
  deriving DecidableEq, Repr

/-- Project away the error-reporting state. -/
def Pre.core (s : Pre) : Core :=
  { html := s.html, pos := s.pos, lastGapPos := s.lastGapPos
    gapStack := s.gapStack, skipNextNewLine := s.skipNextNewLine
    lastChunkWritten := s.lastChunkWritten, endOfChunkHit := s.endOfChunkHit
    bufferWaterline := s.bufferWaterline, isEol := s.isEol
    lineStartPos := s.lineStartPos, droppedBufferSize := s.droppedBufferSize
    line := s.line, hasErrHandler := s.hasErrHandler }

/-- The spec's formula for `col` as written:
`pos − lineStartPos + (lastGapPos == pos ? 1 : 0)`. -/
def colSpecClaimed (s : Pre) : Int :=
  s.pos - s.lineStartPos + (if s.lastGapPos = s.pos then 1 else 0)

/-- The corrected formula:
`pos − lineStartPos + (lastGapPos == pos ? 0 : 1)`. -/
def colSpecAmended (s : Pre) : Int :=
  s.pos - s.lineStartPos + (if s.lastGapPos = s.pos then 0 else 1)

/-- The state of `ParserStream`.  `pre` is the preprocessor owned by
`parser.tokenizer`; `tokActive` and `tokStopped` are modelled from the
spec (`parser.tokenizer.active` and `parser.stopped`, whose definitions
live outside the provided sources); `loopRuns` counts invocations of
`runParsingLoopForCurrentChunk` and `insertLog` records the chunks passed
to `insertHtmlAtCurrentPos`, in call order — both are instrumentation. -/
structure PStream where
  pausedByScript : Bool
  pendingHtmlInsertions : List (List Nat)
  pre : Pre
  tokActive : Bool
  tokStopped : Bool
  loopRuns : Nat
  insertLog : List (List Nat)
  deriving DecidableEq, Repr

/-- `_documentWrite(html)`: queue an insertion unless the parser has
stopped (`push` appends, so the list is in order of receipt). -/
def documentWrite (html : List Nat) (s : PStream) : PStream :=
  if !s.tokStopped then
    { s with pendingHtmlInsertions := s.pendingHtmlInsertions ++ [html] }
  else s

/-- Modelled from the spec: `parser.tokenizer.insertHtmlAtCurrentPos`
forwards to the preprocessor, and `runParsingLoopForCurrentChunk` is
abstracted to the `loopRuns` counter.  `_resume()`: fail if not paused;
otherwise drain the pending insertions by popping from the end of the
stack (so the loop iterates over `pendingHtmlInsertions.reverse`), clear
the pause flag, and continue the loop when the tokenizer is active. -/
def streamResume (s : PStream) : Except String PStream :=
  if !s.pausedByScript then Except.error "Parser was already resumed"
  else
    let order : List (List Nat) := s.pendingHtmlInsertions.reverse
    let s2 : PStream :=
      { s with pre := order.foldl (fun p c => Pre.insertHtmlAtCurrentPos c p) s.pre
               pendingHtmlInsertions := []
               insertLog := s.insertLog ++ order
               pausedByScript := false }
    if s2.tokActive then Except.ok { s2 with loopRuns := s2.loopRuns + 1 }
    else Except.ok s2

/-- The input contains no CR and no LF code units. -/
def NoNewline (cs : List Nat) : Prop := ∀ c ∈ cs, c ≠ 13 ∧ c ≠ 10

instance (cs : List Nat) : Decidable (NoNewline cs) := by
  unfold NoNewline; infer_instance

/-- States reached by advancing through a fully written newline-free
input: the buffer is `cs`, the CRLF machinery is quiescent, and the gap
bookkeeping is consistent (`lastGapPos ≤ pos`, cursor at or after `-1`). -/
def Inv (cs : List Nat) (s : Pre) : Prop :=
  s.html = cs ∧ s.skipNextNewLine = false ∧ s.isEol = false ∧
  s.lastChunkWritten = true ∧ s.endOfChunkHit = false ∧
  s.lastGapPos ≤ s.pos ∧ -1 ≤ s.pos

/-- The error-reporting invariant maintained by `_err`: consecutive
recorded errors have distinct offsets, and `lastErrOffset` is the offset
of the most recent one (`-1` when none was reported). -/
def ErrInvP (log : List ParserError) (lastOff : Int) : Prop :=
  List.Chain' (fun a b => a.startOffset ≠ b.startOffset) log ∧
  (match log with
   | [] => True
   | e :: _ => lastOff = e.startOffset)

/-- Input for the C3 counterexample: `"ab\ncd"` advanced five times with
the (public, test-adjustable) waterline lowered to 1. -/
def c3state : Pre :=
  { runOps [PreOp.writeOp [97, 98, 10, 99, 100] true, PreOp.advanceOp,
      PreOp.advanceOp, PreOp.advanceOp, PreOp.advanceOp, PreOp.advanceOp]
      (init true) with bufferWaterline := 1 }

/-- Input for the C4 counterexample: two isolated surrogates, advanced
over twice, then `retreat(2)` and a fresh `advance`. -/
def c4state : Pre :=
  runOps [PreOp.writeOp [55296, 55296] true, PreOp.advanceOp, PreOp.advanceOp,
    PreOp.retreatOp 2, PreOp.advanceOp] (init true)

/-- Input for the C7 counterexample: `"a"` followed by a lone leading
surrogate, written as a non-final chunk and advanced once. -/
def c7state : Pre :=
  runOps [PreOp.writeOp [97, 55296] false, PreOp.advanceOp] (init true)

/-- State for the C6 witness, pair case: `"a"` then the surrogate pair
U+D835 U+DC04 (U+1D404), written in full, advanced once. -/
def c6pairState : Pre :=
  runOps [PreOp.writeOp [97, 55349, 56324] true, PreOp.advanceOp] (init true)

/-- State for the C6 witness, isolated case: `"a"` then a lone leading
surrogate, written in full, advanced once. -/
def c6isoState : Pre :=
  runOps [PreOp.writeOp [97, 55296] true, PreOp.advanceOp] (init true)

/-- State for the C7 witness, plain end-of-buffer case: `"a"` written in
full and advanced once. -/
def c7eofState : Pre :=
  runOps [PreOp.writeOp [97] true, PreOp.advanceOp] (init true)

/-- Input for the C2 counterexample: `"\na\r"` written in full. -/
def c2state : Pre := Pre.write [10, 97, 13] true (init true)

/-- Input for the C5 scenario: `"a\r\nb\rc\nd"` written in full. -/
def c5state : Pre :=
  Pre.write [97, 13, 10, 98, 13, 99, 10, 100] true (init true)

/-- State for the C8 witness: a paused stream with two pending
insertions. -/
def c8state : PStream :=
  { pausedByScript := true, pendingHtmlInsertions := [[60, 105, 62], [60, 98, 62]]
    pre := init true, tokActive := true, tokStopped := false
    loopRuns := 0, insertLog := [] }

/-! ## Theorems -/

/-! ### Infrastructure: `_err` and `_checkForProblematicCharacters` only
touch the error-reporting state -/

@[simp] theorem err_core (c : ERR) (s : Pre) : (s.err c).core = s.core := by
  unfold Pre.err; split_ifs <;> rfl

@[simp] theorem checkFor_core (cp : Int) (s : Pre) :
    (Pre.checkForProblematicCharacters cp s).core = s.core := by
  unfold Pre.checkForProblematicCharacters; split_ifs <;> simp

theorem core_fields (s t : Pre) (h : s.core = t.core) :
    s.html = t.html ∧ s.pos = t.pos ∧ s.lastGapPos = t.lastGapPos ∧
    s.gapStack = t.gapStack ∧ s.skipNextNewLine = t.skipNextNewLine ∧
    s.lastChunkWritten = t.lastChunkWritten ∧ s.endOfChunkHit = t.endOfChunkHit ∧
    s.bufferWaterline = t.bufferWaterline ∧ s.isEol = t.isEol ∧
    s.lineStartPos = t.lineStartPos ∧ s.droppedBufferSize = t.droppedBufferSize ∧
    s.line = t.line ∧ s.hasErrHandler = t.hasErrHandler := by
  cases s; cases t
  simp only [Pre.core, Core.mk.injEq] at h
  exact h

@[simp] theorem err_pos (c : ERR) (s : Pre) : (s.err c).pos = s.pos :=
  ((core_fields _ _ (err_core c s)).2.1)

@[simp] theorem err_lastGapPos (c : ERR) (s : Pre) :
    (s.err c).lastGapPos = s.lastGapPos :=
  ((core_fields _ _ (err_core c s)).2.2.1)

@[simp] theorem err_gapStack (c : ERR) (s : Pre) :
    (s.err c).gapStack = s.gapStack :=
  ((core_fields _ _ (err_core c s)).2.2.2.1)

@[simp] theorem err_html (c : ERR) (s : Pre) : (s.err c).html = s.html :=
  ((core_fields _ _ (err_core c s)).1)

@[simp] theorem checkFor_pos (cp : Int) (s : Pre) :
    (Pre.checkForProblematicCharacters cp s).pos = s.pos :=
  ((core_fields _ _ (checkFor_core cp s)).2.1)

@[simp] theorem checkFor_lastGapPos (cp : Int) (s : Pre) :
    (Pre.checkForProblematicCharacters cp s).lastGapPos = s.lastGapPos :=
  ((core_fields _ _ (checkFor_core cp s)).2.2.1)

@[simp] theorem checkFor_gapStack (cp : Int) (s : Pre) :
    (Pre.checkForProblematicCharacters cp s).gapStack = s.gapStack :=
  ((core_fields _ _ (checkFor_core cp s)).2.2.2.1)

@[simp] theorem err_lastChunkWritten (c : ERR) (s : Pre) :
    (s.err c).lastChunkWritten = s.lastChunkWritten :=
  ((core_fields _ _ (err_core c s)).2.2.2.2.2.1)

@[simp] theorem err_endOfChunkHit (c : ERR) (s : Pre) :
    (s.err c).endOfChunkHit = s.endOfChunkHit :=
  ((core_fields _ _ (err_core c s)).2.2.2.2.2.2.1)

@[simp] theorem err_skipNextNewLine (c : ERR) (s : Pre) :
    (s.err c).skipNextNewLine = s.skipNextNewLine :=
  ((core_fields _ _ (err_core c s)).2.2.2.2.1)

@[simp] theorem err_isEol (c : ERR) (s : Pre) : (s.err c).isEol = s.isEol :=
  ((core_fields _ _ (err_core c s)).2.2.2.2.2.2.2.2.1)

@[simp] theorem checkFor_html (cp : Int) (s : Pre) :
    (Pre.checkForProblematicCharacters cp s).html = s.html :=
  ((core_fields _ _ (checkFor_core cp s)).1)

@[simp] theorem checkFor_lastChunkWritten (cp : Int) (s : Pre) :
    (Pre.checkForProblematicCharacters cp s).lastChunkWritten = s.lastChunkWritten :=
  ((core_fields _ _ (checkFor_core cp s)).2.2.2.2.2.1)

@[simp] theorem checkFor_endOfChunkHit (cp : Int) (s : Pre) :
    (Pre.checkForProblematicCharacters cp s).endOfChunkHit = s.endOfChunkHit :=
  ((core_fields _ _ (checkFor_core cp s)).2.2.2.2.2.2.1)

@[simp] theorem checkFor_skipNextNewLine (cp : Int) (s : Pre) :
    (Pre.checkForProblematicCharacters cp s).skipNextNewLine = s.skipNextNewLine :=
  ((core_fields _ _ (checkFor_core cp s)).2.2.2.2.1)

@[simp] theorem checkFor_isEol (cp : Int) (s : Pre) :
    (Pre.checkForProblematicCharacters cp s).isEol = s.isEol :=
  ((core_fields _ _ (checkFor_core cp s)).2.2.2.2.2.2.2.2.1)

theorem cuAt_nonneg (l : List Nat) (i : Int) : 0 ≤ cuAt l i := by
  unfold cuAt
  split_ifs
  · exact Int.ofNat_nonneg _
  · exact le_refl 0

theorem advance_of_inl {s : Pre} {r : Int × Pre} (h : advanceStep s = Sum.inl r) :
    Pre.advance s = r := by
  unfold Pre.advance; rw [h]

theorem advance_of_inr {s t : Pre} {r : Int × Pre} (h : advanceStep s = Sum.inr t)
    (h2 : advanceStep t = Sum.inl r) : Pre.advance s = r := by
  unfold Pre.advance; rw [h]; simp only []; rw [h2]

/-- C1, counterexample.  On the freshly constructed preprocessor (a
reachable state), the `col` getter returns `0`, but the spec's formula
`pos − lineStartPos + (lastGapPos == pos ? 1 : 0)` yields `-1`: the
condition in the spec is inverted. -/
theorem c1_counterexample :
    Pre.col (init true) = 0 ∧ colSpecClaimed (init true) = -1 := by decide

/-- C1, amended.  For every preprocessor state, the `col` getter equals
`pos − lineStartPos` plus 1 exactly when `lastGapPos` is distinct from
`pos` (i.e. `col = pos − lineStartPos + (lastGapPos == pos ? 0 : 1)`). -/
theorem c1_amended (s : Pre) : s.col = colSpecAmended s := by
  unfold Pre.col colSpecAmended
  by_cases h : s.lastGapPos = s.pos <;> simp [h]

/-- C10.  `dropParsedChunk` preserves the `offset` getter and `line`, and
the suffix of `html` at and after the (old) cursor: compaction is
unobservable through these views. -/
theorem c10_drop_frame (s : Pre) :
    s.dropParsedChunk.offset = s.offset ∧
    s.dropParsedChunk.line = s.line ∧
    s.dropParsedChunk.html.drop s.dropParsedChunk.pos.toNat =
      s.html.drop s.pos.toNat := by
  unfold Pre.dropParsedChunk
  split_ifs with h
  · refine ⟨?_, rfl, ?_⟩
    · simp only [Pre.offset]; ring
    · simp
  · exact ⟨rfl, rfl, rfl⟩

/-- C3, counterexample.  A reachable state (waterline 1, cursor past it,
mid-line) where `dropParsedChunk` fires: `lineStartPos` afterwards is
`-1`, not `0` — the code subtracts the old `pos` from `lineStartPos`
rather than resetting it to `0` (which keeps `col` correct, here `2`). -/
theorem c3_counterexample :
    c3state.bufferWaterline < c3state.pos ∧
    c3state.dropParsedChunk.lineStartPos = -1 ∧
    c3state.dropParsedChunk.col = 2 := by decide

/-- C3, amended.  If `pos > bufferWaterline`, `dropParsedChunk` removes
the first `pos` code units of `html`, adds that count to
`droppedBufferSize`, resets `pos` to 0, subtracts the old `pos` from the
line-start position, and clears the gap stack (resetting `lastGapPos` to
`-2`); if `pos ≤ bufferWaterline` it changes nothing. -/
theorem c3_amended (s : Pre) :
    (s.bufferWaterline < s.pos →
      s.dropParsedChunk.html = s.html.drop s.pos.toNat ∧
      s.dropParsedChunk.html.length = s.html.length - s.pos.toNat ∧
      s.dropParsedChunk.droppedBufferSize = s.droppedBufferSize + s.pos ∧
      s.dropParsedChunk.pos = 0 ∧
      s.dropParsedChunk.lineStartPos = s.lineStartPos - s.pos ∧
      s.dropParsedChunk.gapStack = [] ∧
      s.dropParsedChunk.lastGapPos = -2) ∧
    (s.pos ≤ s.bufferWaterline → s.dropParsedChunk = s) := by
  unfold Pre.dropParsedChunk Pre.willDropParsedChunk
  constructor
  · intro h
    rw [if_pos h]
    exact ⟨rfl, by simp, rfl, rfl, rfl, rfl, rfl⟩
  · intro h
    rw [if_neg (by omega)]

/-- C3, witness for the amended theorem at the concrete state of the
counterexample. -/
theorem c3_amended_witness :
    c3state.bufferWaterline < c3state.pos ∧
    c3state.dropParsedChunk.droppedBufferSize =
      c3state.droppedBufferSize + c3state.pos :=
  ⟨by decide, ((c3_amended c3state).1 (by decide)).2.2.1⟩

/-- C4, counterexample.  Over the operation sequence
`write "\uD800\uD800" (last); advance; advance; retreat 2; advance` the
preprocessor reports `surrogateInInputStream` at `startOffset` 0, then at
1, then at 0 again: the same `(code, startOffset)` pair is reported
twice. -/
theorem c4_counterexample :
    c4state.log.countP
      (fun e => decide (e.code = ERR.surrogateInInputStream ∧ e.startOffset = 0))
      = 2 := by decide

/-- C2, counterexample.  On input `"\na\r"` written in full, three
`advance` calls return `LF, 'a', LF`; after `retreat(3)`, re-advancing
three times returns `'a', LF, EOF` — neither the codepoints nor the
positions repeat, because `retreat` does not rewind `line`,
`lineStartPos` or the pending `skipNextNewLine` flag. -/
theorem c2_counterexample :
    (outRec c2state 3).1.map (fun o => o.1) = [10, 97, 10] ∧
    (outRec (Pre.retreat 3 (iterN c2state 3)) 3).1.map (fun o => o.1) =
      [97, 10, -1] ∧
    (outRec (Pre.retreat 3 (iterN c2state 3)) 3).1 ≠ (outRec c2state 3).1 := by
  decide

/-- C5.  On input `"a\r\nb\rc\nd"` written in full, seven `advance`
calls return the codepoints `a, LF, b, LF, c, LF, d` (CR→LF
normalization applied, LF-after-CR suppressed as a gap), and `b`, `c`,
`d` are observed at lines 2, 3, 4, each as the first character of its
line (0-based column `pos − lineStartPos = 0`; the 1-based `col` getter
reads 1 there). -/
theorem c5_crlf_normalization :
    (outRec c5state 7).1 =
      [(97, 1, 1, 0), (10, 1, 2, 1), (98, 2, 1, 3), (10, 2, 2, 4),
       (99, 3, 1, 5), (10, 3, 2, 6), (100, 4, 1, 7)] ∧
    (iterN c5state 3).line = 2 ∧ (iterN c5state 3).pos - (iterN c5state 3).lineStartPos = 0 ∧
    (iterN c5state 5).line = 3 ∧ (iterN c5state 5).pos - (iterN c5state 5).lineStartPos = 0 ∧
    (iterN c5state 7).line = 4 ∧ (iterN c5state 7).pos - (iterN c5state 7).lineStartPos = 0 := by
  decide

/-- C7, counterexample.  `write("a\uD800", last = false)` then two
`advance` calls: the second returns `EOF` although the incremented `pos`
(1) is strictly below `html.length` (2) — the surrogate-deferral path
also returns `EOF`. -/
theorem c7_counterexample :
    (Pre.advance c7state).1 = EOF_CP ∧
    (Pre.advance c7state).2.pos < ((Pre.advance c7state).2.html.length : Int) := by
  decide

set_option maxHeartbeats 4000000 in
/-- Per-branch facts about a completed `advanceStep`: the buffer and
`lastChunkWritten` are untouched, and `EOF` arises only at the buffer end
or on a deferred trailing surrogate at a chunk boundary (with
`endOfChunkHit` set to `!lastChunkWritten` in either case). -/
theorem advanceStep_inl_facts (s : Pre) (r : Int × Pre) (h : advanceStep s = Sum.inl r) :
    r.2.html = s.html ∧ r.2.lastChunkWritten = s.lastChunkWritten ∧
    (r.1 = EOF_CP →
      r.2.endOfChunkHit = !s.lastChunkWritten ∧
      ((s.html.length : Int) ≤ r.2.pos ∨
        (r.2.pos = (s.html.length : Int) - 1 ∧ s.lastChunkWritten = false ∧
          isSurrogate (cuAt s.html r.2.pos)))) := by
  obtain ⟨ht, po, lg, gs, sk, lc, ec, bw, ie, ls, db, ln, le, hh, lo⟩ := s
  simp only at h ⊢
  cases ie <;>
  · unfold advanceStep Pre.processSurrogate Pre.addGap at h
    simp only [Bool.false_eq_true, if_false, if_true, apply_ite Pre.pos,
      apply_ite Pre.html, apply_ite Pre.lastChunkWritten, apply_ite Pre.hasErrHandler,
      apply_ite Pre.lastErrOffset, apply_ite Pre.droppedBufferSize,
      apply_ite Pre.endOfChunkHit, apply_ite Pre.log, apply_ite Pre.line,
      apply_ite Pre.lineStartPos, apply_ite Pre.gapStack, apply_ite Pre.lastGapPos,
      apply_ite Pre.skipNextNewLine, apply_ite Pre.bufferWaterline,
      apply_ite Pre.isEol, ite_self] at h
    split_ifs at h <;>
      first
        | (exfalso; simp_all [isSurrogate, isSurrogatePair, LF_CP, CR_CP, EOF_CP]; done)
        | (injection h with h2; subst h2
           refine ⟨by simp, by simp, fun hE => ?_⟩
           first
             | (exfalso
                have h0 := cuAt_nonneg ht (po + 1)
                have h1 := cuAt_nonneg ht (po + 1 + 1)
                simp only [EOF_CP, LF_CP, CR_CP, getSurrogatePairCodePoint] at hE
                try simp only [isSurrogate, isSurrogatePair] at *
                omega)
             | (refine ⟨by simp, Or.inl (by simp; omega)⟩)
             | (refine ⟨by simp_all, Or.inr ⟨by simp; omega, by simp_all,
                  by simp_all [isSurrogate]⟩⟩))

/-- Evaluation of `_processSurrogate` on a well-formed pair. -/
theorem psur_pair (cp : Int) (s : Pre) (hne : s.pos ≠ (s.html.length : Int) - 1)
    (hpair : isSurrogatePair (cuAt s.html (s.pos + 1))) :
    Pre.processSurrogate cp s =
      (getSurrogatePairCodePoint cp (cuAt s.html (s.pos + 1)),
        Pre.addGap { s with pos := s.pos + 1 }) := by
  unfold Pre.processSurrogate
  rw [if_pos hne, if_pos hpair]

/-- Evaluation of `_processSurrogate` on an isolated surrogate after the
last chunk was written. -/
theorem psur_isolated (cp : Int) (s : Pre)
    (h : s.pos ≠ (s.html.length : Int) - 1 → ¬ isSurrogatePair (cuAt s.html (s.pos + 1)))
    (hlast : s.lastChunkWritten = true) :
    Pre.processSurrogate cp s = (cp, s.err ERR.surrogateInInputStream) := by
  unfold Pre.processSurrogate
  split_ifs with h1 h2 h3
  · exact absurd h2 (h h1)
  · rfl
  · rw [hlast] at h3; simp at h3
  · rfl

set_option maxHeartbeats 2000000 in
/-- C6.  When `advance()` reads a leading surrogate: if a trailing
surrogate follows in the buffer, it returns the combined codepoint of the
pair and records a gap (the cursor lands on the trailing unit and the old
`lastGapPos` is pushed onto the gap stack); if instead no trailing
surrogate follows and the end of the stream has been written, it reports
`surrogateInInputStream` at the surrogate's offset (given an installed
handler and a fresh offset) and returns the surrogate code unit as-is. -/
theorem c6_surrogate (s : Pre)
    (hlen : s.pos + 1 < (s.html.length : Int))
    (hlo : 0xd800 ≤ cuAt s.html (s.pos + 1))
    (hhi : cuAt s.html (s.pos + 1) ≤ 0xdbff) :
    (s.pos + 2 < (s.html.length : Int) →
      isSurrogatePair (cuAt s.html (s.pos + 2)) →
      (Pre.advance s).1 =
        getSurrogatePairCodePoint (cuAt s.html (s.pos + 1)) (cuAt s.html (s.pos + 2)) ∧
      (Pre.advance s).2.pos = s.pos + 2 ∧
      (Pre.advance s).2.lastGapPos = s.pos + 2 ∧
      (Pre.advance s).2.gapStack = s.lastGapPos :: s.gapStack) ∧
    ((s.pos + 2 < (s.html.length : Int) → ¬ isSurrogatePair (cuAt s.html (s.pos + 2))) →
      s.lastChunkWritten = true → s.hasErrHandler = true →
      s.lastErrOffset ≠ s.droppedBufferSize + s.pos + 1 →
      (Pre.advance s).1 = cuAt s.html (s.pos + 1) ∧
      ((Pre.advance s).2.log.head?.map (fun e => (e.code, e.startOffset))) =
        some (ERR.surrogateInInputStream, s.droppedBufferSize + s.pos + 1) ∧
      (Pre.advance s).2.log.tail = s.log) := by
  obtain ⟨ht, po, lg, gs, sk, lc, ec, bw, ie, ls, db, ln, le, hh, lo⟩ := s
  simp only at hlen hlo hhi ⊢
  have e2 : po + 1 + 1 = po + 2 := by ring
  constructor
  · intro hnext hpair
    obtain ⟨hplo, hphi⟩ := hpair
    cases ie <;>
    · unfold Pre.advance advanceStep
      simp only [Bool.false_eq_true, if_false, if_true]
      rw [if_neg (by simp; omega)]
      rw [if_neg (show ¬ cuAt ht (po + 1) = CR_CP by unfold CR_CP; omega)]
      rw [if_neg (show ¬ (cuAt ht (po + 1) = LF_CP ∧ sk = true) by
        rintro ⟨h, -⟩; unfold LF_CP at h; omega)]
      rw [if_neg (show ¬ cuAt ht (po + 1) = LF_CP by unfold LF_CP; omega)]
      rw [if_pos (show isSurrogate (cuAt ht (po + 1)) from ⟨hlo, by omega⟩)]
      rw [psur_pair _ _ (by simp; omega)
        (by simp only []; rw [show po + 1 + 1 = po + 2 from e2]; exact ⟨hplo, hphi⟩)]
      simp only [e2]
      split_ifs <;> refine ⟨rfl, ?_, ?_, ?_⟩ <;> simp [Pre.addGap]
  · intro hiso hlast hherr hfresh
    subst hherr
    cases ie <;>
    · unfold Pre.advance advanceStep
      simp only [Bool.false_eq_true, if_false, if_true]
      rw [if_neg (by simp; omega)]
      rw [if_neg (show ¬ cuAt ht (po + 1) = CR_CP by unfold CR_CP; omega)]
      rw [if_neg (show ¬ (cuAt ht (po + 1) = LF_CP ∧ sk = true) by
        rintro ⟨h, -⟩; unfold LF_CP at h; omega)]
      rw [if_neg (show ¬ cuAt ht (po + 1) = LF_CP by unfold LF_CP; omega)]
      rw [if_pos (show isSurrogate (cuAt ht (po + 1)) from ⟨hlo, by omega⟩)]
      rw [psur_isolated _ _ (by
        intro hne; simp at hne
        rw [show po + 1 + 1 = po + 2 from e2]; exact hiso (by omega)) hlast]
      rw [if_pos (Or.inr (Or.inr (Or.inr (Or.inr ⟨by omega, by omega⟩))))]
      unfold Pre.err
      rw [if_pos ⟨rfl, by simp [Pre.offset]; omega⟩]
      refine ⟨rfl, ?_, rfl⟩
      simp [Pre.getError, Pre.offset]
      omega

/-- C6, witness: the theorem applied at two concrete states — a
well-formed pair combining to scalar value 119812 (U+1D404), and an
isolated surrogate reported
at offset 1. -/
theorem c6_surrogate_witness :
    (Pre.advance c6pairState).1 = 119812 ∧
    (Pre.advance c6pairState).2.gapStack = [-2] ∧
    (Pre.advance c6isoState).1 = 55296 ∧
    ((Pre.advance c6isoState).2.log.head?.map (fun e => (e.code, e.startOffset))) =
      some (ERR.surrogateInInputStream, 1) := by
  have hA := (c6_surrogate c6pairState (by decide) (by decide) (by decide)).1
    (by decide) (by decide)
  have hB := (c6_surrogate c6isoState (by decide) (by decide) (by decide)).2
    (by decide) (by decide) (by decide) (by decide)
  refine ⟨?_, ?_, ?_, ?_⟩
  · rw [hA.1]; decide
  · rw [hA.2.2.2]; decide
  · rw [hB.1]; decide
  · rw [hB.2.1]; decide


set_option maxHeartbeats 4000000 in
/-- A suspended `advanceStep` (LF-after-CR branch) leaves the buffer and
`lastChunkWritten` untouched and clears `skipNextNewLine`, so the
recursive call cannot suspend again. -/
theorem advanceStep_inr_facts (s t : Pre) (h : advanceStep s = Sum.inr t) :
    t.html = s.html ∧ t.lastChunkWritten = s.lastChunkWritten ∧
    t.skipNextNewLine = false := by
  obtain ⟨ht, po, lg, gs, sk, lc, ec, bw, ie, ls, db, ln, le, hh, lo⟩ := s
  simp only at h ⊢
  cases ie <;>
  · unfold advanceStep Pre.processSurrogate Pre.addGap at h
    simp only [Bool.false_eq_true, if_false, if_true, apply_ite Pre.pos,
      apply_ite Pre.html, apply_ite Pre.lastChunkWritten, apply_ite Pre.hasErrHandler,
      apply_ite Pre.lastErrOffset, apply_ite Pre.droppedBufferSize,
      apply_ite Pre.endOfChunkHit, apply_ite Pre.log, apply_ite Pre.line,
      apply_ite Pre.lineStartPos, apply_ite Pre.gapStack, apply_ite Pre.lastGapPos,
      apply_ite Pre.skipNextNewLine, apply_ite Pre.bufferWaterline,
      apply_ite Pre.isEol, ite_self] at h
    split_ifs at h <;>
      first
        | (exfalso; exact Sum.noConfusion h)
        | (injection h with h2; subst h2; exact ⟨rfl, rfl, rfl⟩)

set_option maxHeartbeats 4000000 in
/-- With `skipNextNewLine` clear, `advanceStep` always completes. -/
theorem advanceStep_of_skip_false (s : Pre) (hsk : s.skipNextNewLine = false) :
    ∃ r, advanceStep s = Sum.inl r := by
  obtain ⟨ht, po, lg, gs, sk, lc, ec, bw, ie, ls, db, ln, le, hh, lo⟩ := s
  simp only at hsk ⊢
  subst hsk
  cases ie <;>
  · unfold advanceStep
    simp only [Bool.false_eq_true, if_false, if_true]
    split_ifs <;> first | exact ⟨_, rfl⟩ | simp_all

/-- When the incremented cursor reaches the end of the buffer, `advance`
returns `EOF` and sets `endOfChunkHit` to `!lastChunkWritten`. -/
theorem advanceStep_eof (s : Pre) (h : (s.html.length : Int) ≤ s.pos + 1) :
    (Pre.advance s).1 = EOF_CP ∧
    (Pre.advance s).2.endOfChunkHit = !s.lastChunkWritten ∧
    (Pre.advance s).2.pos = s.pos + 1 := by
  obtain ⟨ht, po, lg, gs, sk, lc, ec, bw, ie, ls, db, ln, le, hh, lo⟩ := s
  simp only at h ⊢
  cases ie <;>
  · unfold Pre.advance advanceStep
    simp only [Bool.false_eq_true, if_false, if_true]
    rw [if_pos (show (ht.length : Int) ≤ po + 1 from h)]
    exact ⟨rfl, rfl, rfl⟩

/-- C7, amended.  `advance()` returns the `EOF` sentinel whenever the
incremented `pos` is `≥ html.length`, but not only then: `EOF` is also
returned, with `pos < html.length`, when the final buffer position holds
a surrogate code unit and the last chunk has not been written (the
deferred-pair case).  In every `EOF` case `endOfChunkHit` is set to
`!lastChunkWritten`, so a true end-of-input `EOF` and a chunk-boundary
`EOF` are distinguished by that flag. -/
theorem c7_amended (s : Pre) :
    ((s.html.length : Int) ≤ s.pos + 1 →
      (Pre.advance s).1 = EOF_CP ∧
      (Pre.advance s).2.endOfChunkHit = !s.lastChunkWritten) ∧
    ((Pre.advance s).1 = EOF_CP →
      (Pre.advance s).2.endOfChunkHit = !s.lastChunkWritten) ∧
    ((Pre.advance s).1 = EOF_CP →
      ((s.html.length : Int) ≤ (Pre.advance s).2.pos ∨
        ((Pre.advance s).2.pos = (s.html.length : Int) - 1 ∧
          s.lastChunkWritten = false ∧
          isSurrogate (cuAt s.html (Pre.advance s).2.pos)))) := by
  have main : (Pre.advance s).1 = EOF_CP →
      (Pre.advance s).2.endOfChunkHit = !s.lastChunkWritten ∧
      ((s.html.length : Int) ≤ (Pre.advance s).2.pos ∨
        ((Pre.advance s).2.pos = (s.html.length : Int) - 1 ∧
          s.lastChunkWritten = false ∧
          isSurrogate (cuAt s.html (Pre.advance s).2.pos))) := by
    intro hE
    rcases hstep : advanceStep s with r | t
    · have hadv := advance_of_inl hstep
      have hf := advanceStep_inl_facts s r hstep
      rw [hadv] at hE ⊢
      exact hf.2.2 hE
    · have htf := advanceStep_inr_facts s t hstep
      obtain ⟨r, h2⟩ := advanceStep_of_skip_false t htf.2.2
      have hadv := advance_of_inr hstep h2
      have hf := advanceStep_inl_facts t r h2
      rw [hadv] at hE ⊢
      rw [htf.1, htf.2.1] at hf
      exact hf.2.2 hE
  refine ⟨fun h => ?_, fun hE => (main hE).1, fun hE => (main hE).2⟩
  have he := advanceStep_eof s h
  exact ⟨he.1, he.2.1⟩



/-- C7, witness: the amended theorem applied at a plain end-of-buffer
state and at the deferred-surrogate state of the counterexample. -/
theorem c7_amended_witness :
    (Pre.advance c7eofState).1 = EOF_CP ∧
    ((c7state.html.length : Int) ≤ (Pre.advance c7state).2.pos ∨
      ((Pre.advance c7state).2.pos = (c7state.html.length : Int) - 1 ∧
        c7state.lastChunkWritten = false ∧
        isSurrogate (cuAt c7state.html (Pre.advance c7state).2.pos))) :=
  ⟨((c7_amended c7eofState).1 (by decide)).1,
   (c7_amended c7state).2.2 (by decide)⟩


/-- Folding `insertHtmlAtCurrentPos` over a list of chunks splices their
concatenation, in iteration order reversed, immediately after the cursor
(each later insert lands closer to the cursor), leaving `pos` unchanged. -/
theorem insertFold (l : List (List Nat)) (p : Pre)
    (h1 : (p.pos + 1).toNat ≤ p.html.length) :
    (l.foldl (fun q c => Pre.insertHtmlAtCurrentPos c q) p).html =
      p.html.take (p.pos + 1).toNat ++ l.reverse.flatten ++
        p.html.drop (p.pos + 1).toNat ∧
    (l.foldl (fun q c => Pre.insertHtmlAtCurrentPos c q) p).pos = p.pos := by
  induction l generalizing p with
  | nil => simp
  | cons c rest ih =>
    simp only [List.foldl_cons]
    have hlen : (p.html.take (p.pos + 1).toNat).length = (p.pos + 1).toNat := by
      simp [List.length_take]; omega
    obtain ⟨ha, hb⟩ := ih (Pre.insertHtmlAtCurrentPos c p) (by
      show (p.pos + 1).toNat ≤ (p.html.take (p.pos + 1).toNat ++ c ++ p.html.drop (p.pos + 1).toNat).length
      simp [List.length_take, List.length_drop]
      omega)
    rw [ha, hb]
    show (Pre.insertHtmlAtCurrentPos c p).html.take (p.pos + 1).toNat ++ _ ++
        (Pre.insertHtmlAtCurrentPos c p).html.drop (p.pos + 1).toNat = _ ∧ p.pos = p.pos
    refine ⟨?_, rfl⟩
    show ((p.html.take (p.pos + 1).toNat ++ c ++ p.html.drop (p.pos + 1).toNat).take (p.pos + 1).toNat) ++ _ ++
      ((p.html.take (p.pos + 1).toNat ++ c ++ p.html.drop (p.pos + 1).toNat).drop (p.pos + 1).toNat) = _
    rw [List.append_assoc (p.html.take (p.pos + 1).toNat) c]
    rw [List.take_left' hlen, List.drop_left' hlen]
    simp [List.append_assoc]

/-- C8.  `_resume()` fails with the already-resumed error whenever
`pausedByScript` is false; otherwise it splices every pending
`documentWrite` insertion into the preprocessor at the current position
in reverse order of receipt (LIFO pop order, recorded in `insertLog`), so
that the net buffer content inserts the chunks in receipt order at the
cursor; it clears `pausedByScript` and runs the parsing loop exactly when
the tokenizer is still active. -/
theorem c8_resume (s : PStream)
    (h1 : (s.pre.pos + 1).toNat ≤ s.pre.html.length) :
    (s.pausedByScript = false →
      streamResume s = Except.error "Parser was already resumed") ∧
    (s.pausedByScript = true → ∃ t, streamResume s = Except.ok t ∧
      t.insertLog = s.insertLog ++ s.pendingHtmlInsertions.reverse ∧
      t.pausedByScript = false ∧
      t.pendingHtmlInsertions = [] ∧
      t.loopRuns = s.loopRuns + (if s.tokActive = true then 1 else 0) ∧
      t.pre.html = s.pre.html.take (s.pre.pos + 1).toNat ++
        s.pendingHtmlInsertions.flatten ++ s.pre.html.drop (s.pre.pos + 1).toNat) := by
  constructor
  · intro h
    unfold streamResume
    rw [if_pos (by rw [h]; rfl)]
  · intro h
    obtain ⟨ha, -⟩ := insertFold s.pendingHtmlInsertions.reverse s.pre h1
    unfold streamResume
    rw [if_neg (by rw [h]; simp)]
    dsimp only
    split_ifs with hact
    · refine ⟨_, rfl, rfl, rfl, rfl, ?_, ?_⟩
      · simp [hact]
      · show (s.pendingHtmlInsertions.reverse.foldl
          (fun p c => Pre.insertHtmlAtCurrentPos c p) s.pre).html = _
        rw [ha]; simp
    · refine ⟨_, rfl, rfl, rfl, rfl, ?_, ?_⟩
      · simp at hact; simp [hact]
      · show (s.pendingHtmlInsertions.reverse.foldl
          (fun p c => Pre.insertHtmlAtCurrentPos c p) s.pre).html = _
        rw [ha]; simp



/-- C8, witness: the theorem applied at a concrete paused stream with two
pending insertions. -/
theorem c8_resume_witness :
    (c8state.pre.pos + 1).toNat ≤ c8state.pre.html.length ∧
    (∃ t, streamResume c8state = Except.ok t ∧
      t.insertLog = c8state.insertLog ++ c8state.pendingHtmlInsertions.reverse ∧
      t.pausedByScript = false ∧
      t.pendingHtmlInsertions = [] ∧
      t.loopRuns = c8state.loopRuns + (if c8state.tokActive = true then 1 else 0) ∧
      t.pre.html = c8state.pre.html.take (c8state.pre.pos + 1).toNat ++
        c8state.pendingHtmlInsertions.flatten ++
        c8state.pre.html.drop (c8state.pre.pos + 1).toNat) :=
  ⟨by decide, (c8_resume c8state (by decide)).2 rfl⟩


/-- `_err` preserves the error-reporting invariant: a fresh report has an
offset distinct from the previous one, and `lastErrOffset` tracks it. -/
theorem errP_pres (c : ERR) (s : Pre) (h : ErrInvP s.log s.lastErrOffset) :
    ErrInvP (s.err c).log (s.err c).lastErrOffset := by
  unfold Pre.err
  split_ifs with hc
  · obtain ⟨h1, h2⟩ := h
    constructor
    · show List.Chain' _ (s.getError c :: s.log)
      cases hl : s.log with
      | nil => simp
      | cons e rest =>
        rw [hl] at h1
        refine List.Chain'.cons ?_ h1
        show (s.getError c).startOffset ≠ e.startOffset
        have h2' : s.lastErrOffset = e.startOffset := by
          rw [hl] at h2; exact h2
        show s.offset ≠ e.startOffset
        rw [← h2']
        exact fun hx => hc.2 hx.symm
    · show s.offset = (s.getError c).startOffset
      rfl
  · exact h

/-- `_checkForProblematicCharacters` preserves the invariant. -/
theorem checkFor_errP (cp : Int) (s : Pre) (h : ErrInvP s.log s.lastErrOffset) :
    ErrInvP (Pre.checkForProblematicCharacters cp s).log
      (Pre.checkForProblematicCharacters cp s).lastErrOffset := by
  unfold Pre.checkForProblematicCharacters
  split_ifs
  · exact errP_pres _ _ h
  · exact errP_pres _ _ h
  · exact h

set_option maxHeartbeats 4000000 in
theorem advanceStep_inl_errInv (s : Pre) (h : ErrInvP s.log s.lastErrOffset)
    (r : Int × Pre) (hr : advanceStep s = Sum.inl r) :
    ErrInvP r.2.log r.2.lastErrOffset := by
  obtain ⟨ht, po, lg, gs, sk, lc, ec, bw, ie, ls, db, ln, le, hh, lo⟩ := s
  simp only at h hr ⊢
  cases ie <;>
  · unfold advanceStep Pre.processSurrogate Pre.addGap at hr
    simp only [Bool.false_eq_true, if_false, if_true, apply_ite Pre.pos,
      apply_ite Pre.html, apply_ite Pre.lastChunkWritten, apply_ite Pre.hasErrHandler,
      apply_ite Pre.lastErrOffset, apply_ite Pre.droppedBufferSize,
      apply_ite Pre.endOfChunkHit, apply_ite Pre.log, apply_ite Pre.line,
      apply_ite Pre.lineStartPos, apply_ite Pre.gapStack, apply_ite Pre.lastGapPos,
      apply_ite Pre.skipNextNewLine, apply_ite Pre.bufferWaterline,
      apply_ite Pre.isEol, ite_self] at hr
    split_ifs at hr <;>
      first
        | (exfalso; exact Sum.noConfusion hr)
        | (injection hr with h2; subst h2
           first
             | exact h
             | exact errP_pres _ _ h
             | exact checkFor_errP _ _ h
             | exact checkFor_errP _ _ (errP_pres _ _ h))

set_option maxHeartbeats 4000000 in
theorem advanceStep_inr_errInv (s : Pre) (h : ErrInvP s.log s.lastErrOffset)
    (t : Pre) (hr : advanceStep s = Sum.inr t) :
    ErrInvP t.log t.lastErrOffset := by
  obtain ⟨ht, po, lg, gs, sk, lc, ec, bw, ie, ls, db, ln, le, hh, lo⟩ := s
  simp only at h hr ⊢
  cases ie <;>
  · unfold advanceStep Pre.processSurrogate Pre.addGap at hr
    simp only [Bool.false_eq_true, if_false, if_true, apply_ite Pre.pos,
      apply_ite Pre.html, apply_ite Pre.lastChunkWritten, apply_ite Pre.hasErrHandler,
      apply_ite Pre.lastErrOffset, apply_ite Pre.droppedBufferSize,
      apply_ite Pre.endOfChunkHit, apply_ite Pre.log, apply_ite Pre.line,
      apply_ite Pre.lineStartPos, apply_ite Pre.gapStack, apply_ite Pre.lastGapPos,
      apply_ite Pre.skipNextNewLine, apply_ite Pre.bufferWaterline,
      apply_ite Pre.isEol, ite_self] at hr
    split_ifs at hr <;>
      first
        | (exfalso; exact Sum.noConfusion hr)
        | (injection hr with h2; subst h2; exact h)

/-- `advance` preserves the error-reporting invariant. -/
theorem errInv_advance (s : Pre) (h : ErrInvP s.log s.lastErrOffset) :
    ErrInvP (Pre.advance s).2.log (Pre.advance s).2.lastErrOffset := by
  rcases hstep : advanceStep s with r | t
  · rw [advance_of_inl hstep]
    exact advanceStep_inl_errInv s h r hstep
  · have ht := advanceStep_inr_errInv s h t hstep
    have htf := advanceStep_inr_facts s t hstep
    obtain ⟨r, h2⟩ := advanceStep_of_skip_false t htf.2.2
    rw [advance_of_inr hstep h2]
    exact advanceStep_inl_errInv t ht r h2

/-- Every preprocessor operation preserves the invariant. -/
theorem errInv_applyOp (o : PreOp) (s : Pre) (h : ErrInvP s.log s.lastErrOffset) :
    ErrInvP (applyOp o s).log (applyOp o s).lastErrOffset := by
  cases o with
  | writeOp c l => exact h
  | advanceOp => exact errInv_advance s h
  | retreatOp k =>
    show ErrInvP (Pre.retreat k s).log (Pre.retreat k s).lastErrOffset
    unfold Pre.retreat
    rcases rloop (s.pos - k) s.lastGapPos s.gapStack with ⟨p, g, st⟩
    exact h

/-- C4, amended.  Over every sequence of preprocessor operations
(`write`, `advance`, `retreat`), consecutive invocations of
`onParseError` always carry distinct `startOffset` (the `_err` guard
compares the current offset against the previous report only); the same
`(code, startOffset)` pair can therefore recur, but never in immediate
succession. -/
theorem c4_amended (ops : List PreOp) (hb : Bool) :
    List.Chain' (fun a b => a.startOffset ≠ b.startOffset)
      (runOps ops (init hb)).log := by
  have main : ∀ s, ErrInvP s.log s.lastErrOffset →
      ErrInvP (runOps ops s).log (runOps ops s).lastErrOffset := by
    induction ops with
    | nil => exact fun s hs => hs
    | cons o rest ih => exact fun s hs => ih _ (errInv_applyOp o s hs)
  exact (main (init hb) ⟨List.chain'_nil, trivial⟩).1






@[simp] theorem err_line (c : ERR) (s : Pre) : (s.err c).line = s.line :=
  ((core_fields _ _ (err_core c s)).2.2.2.2.2.2.2.2.2.2.2.1)

@[simp] theorem err_lineStartPos (c : ERR) (s : Pre) :
    (s.err c).lineStartPos = s.lineStartPos :=
  ((core_fields _ _ (err_core c s)).2.2.2.2.2.2.2.2.2.1)

@[simp] theorem err_droppedBufferSize (c : ERR) (s : Pre) :
    (s.err c).droppedBufferSize = s.droppedBufferSize :=
  ((core_fields _ _ (err_core c s)).2.2.2.2.2.2.2.2.2.2.1)

@[simp] theorem err_bufferWaterline (c : ERR) (s : Pre) :
    (s.err c).bufferWaterline = s.bufferWaterline :=
  ((core_fields _ _ (err_core c s)).2.2.2.2.2.2.2.1)

@[simp] theorem err_hasErrHandler (c : ERR) (s : Pre) :
    (s.err c).hasErrHandler = s.hasErrHandler :=
  ((core_fields _ _ (err_core c s)).2.2.2.2.2.2.2.2.2.2.2.2)

@[simp] theorem checkFor_line (cp : Int) (s : Pre) :
    (Pre.checkForProblematicCharacters cp s).line = s.line :=
  ((core_fields _ _ (checkFor_core cp s)).2.2.2.2.2.2.2.2.2.2.2.1)

@[simp] theorem checkFor_lineStartPos (cp : Int) (s : Pre) :
    (Pre.checkForProblematicCharacters cp s).lineStartPos = s.lineStartPos :=
  ((core_fields _ _ (checkFor_core cp s)).2.2.2.2.2.2.2.2.2.1)

@[simp] theorem checkFor_droppedBufferSize (cp : Int) (s : Pre) :
    (Pre.checkForProblematicCharacters cp s).droppedBufferSize = s.droppedBufferSize :=
  ((core_fields _ _ (checkFor_core cp s)).2.2.2.2.2.2.2.2.2.2.1)

@[simp] theorem checkFor_bufferWaterline (cp : Int) (s : Pre) :
    (Pre.checkForProblematicCharacters cp s).bufferWaterline = s.bufferWaterline :=
  ((core_fields _ _ (checkFor_core cp s)).2.2.2.2.2.2.2.1)

@[simp] theorem checkFor_hasErrHandler (cp : Int) (s : Pre) :
    (Pre.checkForProblematicCharacters cp s).hasErrHandler = s.hasErrHandler :=
  ((core_fields _ _ (checkFor_core cp s)).2.2.2.2.2.2.2.2.2.2.2.2)

/-- With no CR/LF in the buffer, `charCodeAt` never yields 13 or 10. -/
theorem cuAt_noNL (cs : List Nat) (hcs : NoNewline cs) (i : Int) :
    cuAt cs i ≠ 13 ∧ cuAt cs i ≠ 10 := by
  unfold cuAt
  split_ifs with h0
  · have hmem : (cs.getD i.toNat 0) ∈ cs ∨ cs.getD i.toNat 0 = 0 := by
      unfold List.getD
      rcases hq : cs.get? i.toNat with _ | c
      · right; simp
      · left; simp; exact List.get?_mem hq
    rcases hmem with hm | hm
    · have := hcs _ hm
      constructor <;> intro hc <;> omega
    · rw [hm]; constructor <;> intro hc <;> omega
  · constructor <;> intro hc <;> omega

/-- `retreat 0` is the identity on quiescent states. -/
theorem retreat_zero (s : Pre) (hg : s.lastGapPos ≤ s.pos) (he : s.isEol = false) :
    Pre.retreat 0 s = s := by
  unfold Pre.retreat
  have h0 : s.pos - ((0 : Nat) : Int) = s.pos := by push_cast; ring
  rw [h0]
  have hr : rloop s.pos s.lastGapPos s.gapStack = (s.pos, s.lastGapPos, s.gapStack) := by
    unfold rloop
    rw [if_neg (by omega)]
  rw [hr]
  cases s
  simp only at he
  subst he
  rfl

/-- `retreat` reads only core fields. -/
theorem retreat_core_congr (k : Nat) (x y : Pre) (h : x.core = y.core) :
    (Pre.retreat k x).core = (Pre.retreat k y).core := by
  have hf := core_fields x y h
  unfold Pre.retreat
  rw [hf.2.1, hf.2.2.1, hf.2.2.2.1]
  rcases rloop (y.pos - k) y.lastGapPos y.gapStack with ⟨p, g, st⟩
  cases x; cases y
  simp only [Pre.core, Core.mk.injEq] at hf ⊢
  tauto

/-- `col`, `offset` and `line` are functions of the core. -/
theorem col_offset_core (x y : Pre) (h : x.core = y.core) :
    x.col = y.col ∧ x.offset = y.offset ∧ x.line = y.line := by
  have hf := core_fields x y h
  unfold Pre.col Pre.offset
  rw [hf.2.1, hf.2.2.1, hf.2.2.2.2.2.2.2.2.2.1, hf.2.2.2.2.2.2.2.2.2.2.1]
  exact ⟨rfl, rfl, hf.2.2.2.2.2.2.2.2.2.2.2.1⟩



/-- One iteration of the retreat loop pops a gap. -/
theorem rloop_step (t g g2 : Int) (st : List Int) (h : t < g) :
    rloop t g (g2 :: st) = rloop (t - 1) g2 st := by
  conv_lhs => rw [rloop.eq_def]
  dsimp only
  rw [if_pos h]

/-- Retreating one step further from a state whose cursor moved forward
one position (no gap) lands on the same core. -/
theorem retreat_core_succ (s x : Pre) (j : Nat)
    (h : x.core = { s.core with pos := s.pos + 1 }) :
    (Pre.retreat (j + 1) x).core = (Pre.retreat j s).core := by
  cases s; cases x
  simp only [Pre.core, Core.mk.injEq] at h
  obtain ⟨h1, h2, h3, h4, h5, h6, h7, h8, h9, h10, h11, h12, h13⟩ := h
  subst h1; subst h2; subst h3; subst h4; subst h5; subst h6; subst h7
  subst h8; subst h9; subst h10; subst h11; subst h12; subst h13
  unfold Pre.retreat
  simp only
  rw [show ∀ po : Int, po + 1 - ((j + 1 : Nat) : Int) = po - (j : Nat) from
    fun po => by push_cast; ring]
  rcases rloop _ _ _ with ⟨p, g, st⟩
  simp [Pre.core]

/-- Retreating one step further from a state whose cursor moved forward
two positions over a recorded gap pops the gap and lands on the same
core. -/
theorem retreat_core_succ_gap (s x : Pre) (j : Nat) (hg : s.lastGapPos ≤ s.pos)
    (h : x.core =
      { s.core with
          pos := s.pos + 2
          lastGapPos := s.pos + 2
          gapStack := s.lastGapPos :: s.gapStack }) :
    (Pre.retreat (j + 1) x).core = (Pre.retreat j s).core := by
  cases s; cases x
  simp only [Pre.core, Core.mk.injEq] at h
  obtain ⟨h1, h2, h3, h4, h5, h6, h7, h8, h9, h10, h11, h12, h13⟩ := h
  subst h1; subst h2; subst h3; subst h4; subst h5; subst h6; subst h7
  subst h8; subst h9; subst h10; subst h11; subst h12; subst h13
  unfold Pre.retreat
  simp only at hg ⊢
  rw [show ∀ po : Int, po + 2 - ((j + 1 : Nat) : Int) = po + 1 - (j : Nat) from
    fun po => by push_cast; ring]
  rw [rloop_step _ _ _ _ (by omega)]
  rw [show ∀ po : Int, po + 1 - ((j : Nat) : Int) - 1 = po - (j : Nat) from
    fun po => by ring]
  rcases rloop _ _ _ with ⟨p, g2, st2⟩
  simp [Pre.core]

set_option maxHeartbeats 4000000 in
/-- The inversion step: on a quiescent newline-free state, retreating
`j + 1` after an `advance` is the same (on cores) as retreating `j`
before it. -/
theorem retreat_succ_advance (cs : List Nat) (hcs : NoNewline cs) (s : Pre)
    (hInv : Inv cs s) (j : Nat) :
    (Pre.retreat (j + 1) (Pre.advance s).2).core = (Pre.retreat j s).core := by
  obtain ⟨hh1, hh2, hh3, hh4, hh5, hg, hp⟩ := hInv
  obtain ⟨ht, po, lg, gs, sk, lc, ec, bw, ie, ls, db, ln, le, hh, lo⟩ := s
  simp only at hh1 hh2 hh3 hh4 hh5 hg hp ⊢
  subst hh1; subst hh2; subst hh3; subst hh4; subst hh5
  have h13 : cuAt ht (po + 1) ≠ CR_CP := (cuAt_noNL ht hcs (po + 1)).1
  have h10 : cuAt ht (po + 1) ≠ LF_CP := (cuAt_noNL ht hcs (po + 1)).2
  obtain ⟨r, hr⟩ := advanceStep_of_skip_false
    ⟨ht, po, lg, gs, false, true, false, bw, false, ls, db, ln, le, hh, lo⟩ rfl
  rw [advance_of_inl hr]
  unfold advanceStep Pre.processSurrogate Pre.addGap at hr
  simp only [Bool.false_eq_true, if_false, if_true, and_false, Bool.not_true,
    Bool.true_eq_false, if_neg h13, if_neg h10] at hr
  split_ifs at hr <;> (injection hr with h2; subst h2) <;>
    first
      | (exfalso; omega)
      | (apply retreat_core_succ _ _ j; simp [Pre.core]; done)
      | (apply retreat_core_succ _ _ j; simp [Pre.core]; omega)
      | (apply retreat_core_succ_gap _ _ j (by simp; omega); simp [Pre.core]; done)
      | (apply retreat_core_succ_gap _ _ j (by simp; omega); simp [Pre.core]; omega)



/-- Peeling one `advance` off the front of a run. -/
theorem iterN_front (s : Pre) (n : Nat) :
    iterN s (n + 1) = iterN (Pre.advance s).2 n := by
  unfold iterN
  rcases h : Pre.advance s with ⟨c, t⟩
  simp [outRec, h]

theorem outRec_front (s : Pre) (n : Nat) :
    (outRec s (n + 1)).1 =
      ((Pre.advance s).1, (Pre.advance s).2.line, (Pre.advance s).2.col,
        (Pre.advance s).2.offset) :: (outRec (Pre.advance s).2 n).1 := by
  rcases h : Pre.advance s with ⟨c, t⟩
  simp [outRec, h]

/-- Peeling one `advance` off the back of a run. -/
theorem iterN_succ (s : Pre) (n : Nat) :
    iterN s (n + 1) = (Pre.advance (iterN s n)).2 := by
  induction n generalizing s with
  | zero => exact iterN_front s 0
  | succ m ih =>
    rw [iterN_front s (m + 1), ih, iterN_front s m]

theorem outRec_len (s : Pre) (n : Nat) : (outRec s n).1.length = n := by
  induction n generalizing s with
  | zero => rfl
  | succ m ih => rw [outRec_front]; simp [ih]

/-- Runs concatenate. -/
theorem outRec_add (s : Pre) (a b : Nat) :
    (outRec s (a + b)).1 = (outRec s a).1 ++ (outRec (iterN s a) b).1 := by
  induction a generalizing s with
  | zero => simp [iterN, outRec]
  | succ m ih =>
    rw [Nat.succ_add]
    rw [outRec_front, outRec_front]
    rw [ih (Pre.advance s).2]
    rw [iterN_front]
    simp



set_option maxHeartbeats 4000000 in
/-- `advance` preserves the newline-free run invariant (also through
`EOF` returns, since the last chunk is written). -/
theorem inv_advance (cs : List Nat) (hcs : NoNewline cs) (s : Pre)
    (hInv : Inv cs s) : Inv cs (Pre.advance s).2 := by
  obtain ⟨hh1, hh2, hh3, hh4, hh5, hg, hp⟩ := hInv
  obtain ⟨ht, po, lg, gs, sk, lc, ec, bw, ie, ls, db, ln, le, hh, lo⟩ := s
  simp only at hh1 hh2 hh3 hh4 hh5 hg hp ⊢
  subst hh1; subst hh2; subst hh3; subst hh4; subst hh5
  have h13 : cuAt ht (po + 1) ≠ CR_CP := (cuAt_noNL ht hcs (po + 1)).1
  have h10 : cuAt ht (po + 1) ≠ LF_CP := (cuAt_noNL ht hcs (po + 1)).2
  obtain ⟨r, hr⟩ := advanceStep_of_skip_false
    ⟨ht, po, lg, gs, false, true, false, bw, false, ls, db, ln, le, hh, lo⟩ rfl
  rw [advance_of_inl hr]
  unfold advanceStep Pre.processSurrogate Pre.addGap at hr
  simp only [Bool.false_eq_true, if_false, if_true, and_false, Bool.not_true,
    Bool.true_eq_false, if_neg h13, if_neg h10] at hr
  split_ifs at hr <;> (injection hr with h2; subst h2) <;>
    refine ⟨by simp, by simp, by simp, by simp, by simp, by simp; all_goals omega, by simp; all_goals omega⟩

set_option maxHeartbeats 4000000 in
/-- The returned codepoint and the core of the result of `advance` depend
only on the core: the error-reporting state never feeds back into them. -/
theorem advance_congr (s t : Pre) (hnl : NoNewline s.html)
    (hsk : s.skipNextNewLine = false)
    (hie : s.isEol = false) (h : s.core = t.core) :
    (Pre.advance s).1 = (Pre.advance t).1 ∧
    (Pre.advance s).2.core = (Pre.advance t).2.core := by
  obtain ⟨ht1, po1, lg1, gs1, sk1, lc1, ec1, bw1, ie1, ls1, db1, ln1, le1, hh1, lo1⟩ := s
  obtain ⟨ht2, po2, lg2, gs2, sk2, lc2, ec2, bw2, ie2, ls2, db2, ln2, le2, hh2, lo2⟩ := t
  simp only [Pre.core, Core.mk.injEq] at h hsk hie
  simp only at hnl
  obtain ⟨e1, e2, e3, e4, e5, e6, e7, e8, e9, e10, e11, e12, e13⟩ := h
  subst e1; subst e2; subst e3; subst e4; subst e5; subst e6; subst e7
  subst e8; subst e9; subst e10; subst e11; subst e12; subst e13
  subst hsk
  subst hie
  obtain ⟨r1, hr1⟩ := advanceStep_of_skip_false
    ⟨ht1, po1, lg1, gs1, false, lc1, ec1, bw1, false, ls1, db1, ln1, le1, hh1, lo1⟩ rfl
  obtain ⟨r2, hr2⟩ := advanceStep_of_skip_false
    ⟨ht1, po1, lg1, gs1, false, lc1, ec1, bw1, false, ls1, db1, ln1, le2, hh1, lo2⟩ rfl
  rw [advance_of_inl hr1, advance_of_inl hr2]
  have h13 : cuAt ht1 (po1 + 1) ≠ CR_CP := (cuAt_noNL ht1 hnl (po1 + 1)).1
  have h10 : cuAt ht1 (po1 + 1) ≠ LF_CP := (cuAt_noNL ht1 hnl (po1 + 1)).2
  unfold advanceStep Pre.processSurrogate Pre.addGap at hr1 hr2
  simp only [Bool.false_eq_true, if_false, if_true, and_false, Bool.not_true,
    Bool.true_eq_false, if_neg h13, if_neg h10, apply_ite Prod.fst, apply_ite Prod.snd,
    apply_ite Pre.pos, apply_ite Pre.html, apply_ite Pre.lastChunkWritten,
    apply_ite Pre.hasErrHandler, apply_ite Pre.lastErrOffset,
    apply_ite Pre.droppedBufferSize, apply_ite Pre.endOfChunkHit, apply_ite Pre.log,
    apply_ite Pre.line, apply_ite Pre.lineStartPos, apply_ite Pre.gapStack,
    apply_ite Pre.lastGapPos, apply_ite Pre.skipNextNewLine,
    apply_ite Pre.bufferWaterline, apply_ite Pre.isEol, ite_self] at hr1 hr2
  split_ifs at hr1 hr2 <;>
    (injection hr1 with g1; injection hr2 with g2; subst g1; subst g2) <;>
    exact ⟨rfl, by simp [Pre.core]⟩


theorem inv_iterN (cs : List Nat) (hcs : NoNewline cs) (s : Pre)
    (hInv : Inv cs s) (n : Nat) : Inv cs (iterN s n) := by
  induction n with
  | zero => exact hInv
  | succ m ih => rw [iterN_succ]; exact inv_advance cs hcs _ ih

/-- Runs from core-equal states produce identical outputs. -/
theorem outRec_congr (cs : List Nat) (hcs : NoNewline cs) (k : Nat) :
    ∀ s t : Pre, Inv cs s → s.core = t.core →
      (outRec s k).1 = (outRec t k).1 ∧ (iterN s k).core = (iterN t k).core := by
  induction k with
  | zero => exact fun s t _ h => ⟨rfl, h⟩
  | succ m ih =>
    intro s t hInv h
    obtain ⟨hi1, hi2, hi3, hi4, hi5, hi6, hi7⟩ := hInv
    have hnl : NoNewline s.html := by rw [hi1]; exact hcs
    have hc := advance_congr s t hnl hi2 hi3 h
    have hrec := ih (Pre.advance s).2 (Pre.advance t).2
      (inv_advance cs hcs s ⟨hi1, hi2, hi3, hi4, hi5, hi6, hi7⟩) hc.2
    constructor
    · rw [outRec_front, outRec_front, hrec.1, hc.1]
      have hlco := col_offset_core (Pre.advance s).2 (Pre.advance t).2 hc.2
      rw [hlco.1, hlco.2.1, hlco.2.2]
    · rw [iterN_front, iterN_front]
      exact hrec.2

/-- Core restoration: `retreat k` after `n` advances lands on the core of
the state after `n - k` advances. -/
theorem retreat_restore (cs : List Nat) (hcs : NoNewline cs) (k : Nat) :
    ∀ n s, Inv cs s → k ≤ n →
      (Pre.retreat k (iterN s n)).core = (iterN s (n - k)).core := by
  induction k with
  | zero =>
    intro n s hInv _
    rw [Nat.sub_zero]
    have hI := inv_iterN cs hcs s hInv n
    rw [retreat_zero (iterN s n) hI.2.2.2.2.2.1 hI.2.2.1]
  | succ m ih =>
    intro n s hInv hk
    cases n with
    | zero => omega
    | succ p =>
      rw [iterN_succ]
      have h1 := retreat_succ_advance cs hcs (iterN s p) (inv_iterN cs hcs s hInv p) m
      rw [h1]
      rw [Nat.succ_sub_succ]
      exact ih p s hInv (by omega)

/-- C2, amended.  For every input free of CR and LF written in full (as
the sole, last chunk) and every number `n` of `advance` calls, calling
`retreat(k)` for `k ≤ n` and then advancing `k` times returns the
identical codepoints and yields identical `(line, col, offset)` at each
step as the original advances `n-k+1 … n` did.  With CR or LF in the
input the round-trip fails (see the counterexample): `retreat` does not
rewind `line`, `lineStartPos` or the pending `skipNextNewLine` flag. -/
theorem c2_amended (cs : List Nat) (hcs : NoNewline cs) (n k : Nat) (hk : k ≤ n) :
    (outRec (Pre.retreat k (iterN (Pre.write cs true (init true)) n)) k).1 =
      ((outRec (Pre.write cs true (init true)) n).1).drop (n - k) := by
  have hInv0 : Inv cs (Pre.write cs true (init true)) := by
    refine ⟨?_, rfl, rfl, rfl, rfl, by norm_num [Pre.write, init], by norm_num [Pre.write, init]⟩
    show (if 0 < ([] : List Nat).length then [] ++ cs else cs) = cs
    simp
  have hcore := retreat_restore cs hcs k n _ hInv0 hk
  have hInvk := inv_iterN cs hcs _ hInv0 (n - k)
  have hc := outRec_congr cs hcs k (iterN (Pre.write cs true (init true)) (n - k))
    (Pre.retreat k (iterN (Pre.write cs true (init true)) n)) hInvk hcore.symm
  rw [← hc.1]
  have hadd := outRec_add (Pre.write cs true (init true)) (n - k) k
  rw [show n - k + k = n from by omega] at hadd
  rw [hadd]
  rw [List.drop_left' (outRec_len (Pre.write cs true (init true)) (n - k))]

/-- C2, witness: the amended theorem at the input `"a·𝔞·b"` (a surrogate
pair between two letters), n = 4 advances, retreat(3). -/
theorem c2_amended_witness :
    NoNewline [97, 55349, 56324, 98] ∧ (3 : Nat) ≤ 4 ∧
    (outRec (Pre.retreat 3 (iterN (Pre.write [97, 55349, 56324, 98] true (init true)) 4)) 3).1 =
      ((outRec (Pre.write [97, 55349, 56324, 98] true (init true)) 4).1).drop 1 :=
  ⟨by decide, by decide, c2_amended [97, 55349, 56324, 98] (by decide) 4 3 (by decide)⟩


end Parse5
